import Mathlib

/-!
Shallow embedding of the Food-OrderingHub repository (two components:
`RestaurantOwnerDashboard.jsx` and `OrderHistory.jsx`) and proofs about it.

Conventions of the embedding:
* JavaScript strings are `String`; a `null`/`undefined` string slot is `Option String`,
  where JS truthiness of a string value is "not empty".
* JS numbers used for prices/subtotals are `ℚ`; quantities and timestamps are `ℕ`.
* `number.toFixed(2)` is rounding to two decimals over `ℚ`.
* Asynchronous store calls are modelled by explicit result values
  (`FetchRes`, oracles `ℕ → Bool`, `String → String → Option String`).
-/

namespace FoodOrder

/-! ## JS string primitives used by `OrderHistory.resolveImage` -/

/-- Whitespace class of the JS regexp `\s` (restricted to characters that can occur
in the data model), used by `String.prototype.trim`. -/
def isWS (c : Char) : Bool :=
  c == ' ' || c == '\t' || c == '\n' || c == '\r' || c == '\u000B' || c == '\u000C'

/-- Embedding of `String.prototype.trim` on the character list: drop leading and
trailing whitespace. -/
def trimList (l : List Char) : List Char :=
  (l.dropWhile isWS).rdropWhile isWS

/-- Embedding of JS `String(value).trim()`. -/
def jsTrim (s : String) : String :=
  ⟨trimList s.data⟩

/-- Boolean "the second list begins with the first list" (character-wise). -/
def listStarts : List Char → List Char → Bool
  | [], _ => true
  | _ :: _, [] => false
  | p :: ps, c :: cs => p == c && listStarts ps cs

/-- Character data of a string with every character lower-cased (for the
case-insensitive regexp test). -/
def lowerData (s : String) : List Char :=
  s.data.map Char.toLower

/-- Embedding of the test `/^https?:\/\//i.test(value)`. -/
def isHttpVal (s : String) : Bool :=
  listStarts "http://".data (lowerData s) || listStarts "https://".data (lowerData s)

/-- Embedding of `value.startsWith('data:')` (case sensitive). -/
def isDataVal (s : String) : Bool :=
  listStarts "data:".data s.data

/-- Embedding of `value.replace(/^\/+/, '')`: strip leading slashes. -/
def stripSlashes (s : String) : String :=
  ⟨s.data.dropWhile (· == '/')⟩

/-! ## Image resolution (`OrderHistory.jsx`, `resolveImage`) -/

/-- The fixed ordered list of storage locations probed by `resolveImage`
(`const bucketsToTry = ['food-images', 'restaurant-images']`). -/
def bucketsToTry : List String :=
  ["food-images", "restaurant-images"]

/-- The probing loop of `resolveImage`: for each bucket in order, ask the storage
oracle `gp` (modelling `supabase.storage.from(bucket).getPublicUrl(key)`, where
`none` covers both a thrown error and a missing/falsy public URL field) and return
the first truthy public URL; exceptions and falsy results mean "try next". -/
def probeBuckets (gp : String → String → Option String) :
    List String → String → Option String
  | [], _ => none
  | b :: rest, key =>
    match gp b key with
    | some url => if url = "" then probeBuckets gp rest key else some url
    | none => probeBuckets gp rest key

/-- Embedding of `resolveImage(raw)` from `OrderHistory.fetchOrders` for a string
(or null) reference: null/empty raw resolves to "no image"; a trimmed value matching
`/^https?:\/\//i` or starting with `data:` is used verbatim; otherwise the value is
treated as a storage key, leading slashes stripped, and the buckets are probed. -/
def resolveImage (gp : String → String → Option String) (raw : Option String) :
    Option String :=
  match raw with
  | none => none
  | some s =>
    if s = "" then none
    else
      let value := jsTrim s
      if isHttpVal value || isDataVal value then some value
      else probeBuckets gp bucketsToTry (stripSlashes value)

/-! ## Customer order-history data model (`OrderHistory.jsx`) -/

/-- The nested `restaurants (name, image_url)` selection under a food item. -/
structure HistRestaurant where
  name : String
  image_url : Option String
deriving DecidableEq

/-- The nested `food_items (restaurant_id, food_item_id, image_url, restaurants)`
selection under an order item; `restaurants` is `none` when the restaurant row
cannot be joined. -/
structure HistFoodItem where
  restaurant_id : String
  food_item_id : String
  image_url : Option String
  restaurants : Option HistRestaurant
deriving DecidableEq

/-- One order line of the history query (`order_items` with its nested selections);
`food_items` is `none` when the food-item row cannot be joined. -/
structure HistItem where
  food_item_id : String
  name : String
  price : ℚ
  quantity : ℕ
  image_url : Option String
  food_items : Option HistFoodItem
deriving DecidableEq

/-- One fetched order of the history query with its nested lines. -/
structure HistOrder where
  id : String
  status : String
  created_at : ℕ
  order_items : List HistItem
deriving DecidableEq

/-- JS truthiness of an optional string (`undefined`/`null`/`''` are falsy). -/
def jsTruthyS : Option String → Bool
  | none => false
  | some s => s != ""

/-- Embedding of `item.food_items?.image_url || item.image_url || null`. -/
def rawImageOf (i : HistItem) : Option String :=
  let fiUrl := i.food_items.bind (·.image_url)
  if jsTruthyS fiUrl then fiUrl
  else if jsTruthyS i.image_url then i.image_url
  else none

/-- Embedding of the per-item enrichment
`{ ...item, image_url: await resolveImage(raw) }`. -/
def enrichItem (gp : String → String → Option String) (i : HistItem) : HistItem :=
  { i with image_url := resolveImage gp (rawImageOf i) }

/-- The resolved restaurant of an item: its display name together with
`food_items.restaurant_id`, or `none` when `item.food_items?.restaurants?.name`
is falsy (the item is then silently dropped by the grouping). -/
def restInfoOf (i : HistItem) : Option (String × String) :=
  match i.food_items with
  | none => none
  | some fi =>
    match fi.restaurants with
    | none => none
    | some r => if r.name = "" then none else some (r.name, fi.restaurant_id)

/-- The resolved restaurant display name of an item (the grouping key). -/
def resNameOf (i : HistItem) : Option String :=
  (restInfoOf i).map Prod.fst

/-- The `food_items.restaurant_id` recorded for a resolvable item. -/
def ridOf (i : HistItem) : String :=
  ((restInfoOf i).map Prod.snd).getD ""

/-- One value of the grouping accumulator object in `fetchOrders`. -/
structure SegGroup where
  restaurantName : String
  restaurantId : String
  items : List HistItem
  subtotal : ℚ
deriving DecidableEq

/-- Association-list lookup, modelling `acc[key]` on the accumulator object. -/
def lookupA : List (String × SegGroup) → String → Option SegGroup
  | [], _ => none
  | (k, v) :: rest, key => if k = key then some v else lookupA rest key

/-- In-place update of every entry under `key`, modelling mutation of `acc[key]`. -/
def updateA (acc : List (String × SegGroup)) (key : String) (f : SegGroup → SegGroup) :
    List (String × SegGroup) :=
  acc.map fun p => if p.1 = key then (p.1, f p.2) else p

/-- One step of the `enrichedItems.reduce((acc, item) => ...)` grouping in
`fetchOrders`: drop items with no resolvable restaurant name, create the group
keyed by the restaurant name on first encounter (recording that first item's
`restaurant_id`), then push the item and add `price * quantity` to the subtotal. -/
def groupStep (acc : List (String × SegGroup)) (i : HistItem) :
    List (String × SegGroup) :=
  match restInfoOf i with
  | none => acc
  | some (rname, rid) =>
    let acc' :=
      if (lookupA acc rname).isSome then acc
      else acc ++ [(rname, ⟨rname, rid, [], 0⟩)]
    updateA acc' rname fun g =>
      { g with
          items := g.items ++ [i]
          subtotal := g.subtotal + i.price * (i.quantity : ℚ) }

/-- One display segment produced from a group
(`{ ...order, displayId, restaurantName, order_items, total, createdAt, isSegment }`). -/
structure Segment where
  id : String
  status : String
  displayId : String
  restaurantName : String
  order_items : List HistItem
  total : ℚ
  createdAt : ℕ
  isSegment : Bool
deriving DecidableEq

/-- Embedding of the per-order body of `fetchOrders`: enrich every item with a
resolved image, group the enriched items by restaurant name, and emit one segment
per group (in first-encounter order), carrying the synthetic
`` `${order.id}-${group.restaurantId}` `` display id and the group subtotal. -/
def segmentsOfOrder (gp : String → String → Option String) (o : HistOrder) :
    List Segment :=
  let enriched := o.order_items.map (enrichItem gp)
  let groups := enriched.foldl groupStep []
  groups.map fun p =>
    { id := o.id
      status := o.status
      displayId := o.id ++ "-" ++ p.2.restaurantId
      restaurantName := p.2.restaurantName
      order_items := p.2.items
      total := p.2.subtotal
      createdAt := o.created_at
      isSegment := true }

/-! ## Specification-side views of the grouping (used to state the theorems) -/

/-- First-occurrence deduplication, modelling `[...new Set(xs)]` and used to name
the distinct resolvable restaurant names of an order. -/
def dedupFirst {α : Type} [DecidableEq α] : List α → List α
  | [] => []
  | x :: xs => x :: (dedupFirst xs).filter (· ≠ x)

/-- The resolvable restaurant names of an item list, in item order. -/
def resNames (items : List HistItem) : List String :=
  items.filterMap resNameOf

/-- The items of a list whose resolved restaurant name is `n`. -/
def itemsWithName (items : List HistItem) (n : String) : List HistItem :=
  items.filter fun i => resNameOf i = some n

/-- The contribution of one line to a subtotal (`item.price * item.quantity`). -/
def itemSubtotal (i : HistItem) : ℚ :=
  i.price * (i.quantity : ℚ)

/-- Sum of `price * quantity` over a list of lines. -/
def sumSubtotals (l : List HistItem) : ℚ :=
  (l.map itemSubtotal).sum

/-- The `restaurant_id` of the first item carrying restaurant name `n`. -/
def firstRid (items : List HistItem) (n : String) : String :=
  match (itemsWithName items n).head? with
  | some i => ridOf i
  | none => ""

/-- The group that the grouping builds for restaurant name `n`. -/
def mkGroup (items : List HistItem) (n : String) : SegGroup :=
  ⟨n, firstRid items n, itemsWithName items n, sumSubtotals (itemsWithName items n)⟩

/-- Whether an item has a resolvable restaurant. -/
def resolvable (i : HistItem) : Bool :=
  (restInfoOf i).isSome

/-- The distinct resolvable restaurant identifiers of an item list. -/
def distinctRids (items : List HistItem) : List String :=
  dedupFirst (items.filterMap fun i => (restInfoOf i).map Prod.snd)

/-- The distinct resolvable restaurant display names of an item list. -/
def distinctNames (items : List HistItem) : List String :=
  dedupFirst (resNames items)

/-! ## Owner dashboard: restaurant-visibility retry state machine (`loadMyData`) -/

/-- The restaurant row as held by the dashboard (only the fields the state machine
needs). -/
structure DashRestaurant where
  id : String
  name : String
deriving DecidableEq

/-- The outcome of the single-row restaurant lookup
(`supabase.from('restaurants').select('*').eq('owner_id', user.id).single()`):
a row, the store's distinguished not-found signal (`code === 'PGRST116'`), or any
other error. -/
inductive LookupRes where
  | found (r : DashRestaurant)
  | notFoundSig
  | otherErr
deriving DecidableEq

/-- The phase of the visibility state machine: still checking, restaurant found, or
the final not-found state (the "No Restaurant Linked" recovery screen; other errors
are folded into it by the code). -/
inductive DashPhase where
  | checking
  | found (r : DashRestaurant)
  | notFoundFinal
deriving DecidableEq

/-- The effect of handling one lookup response in `loadMyData`. -/
structure StepOut where
  attempts : ℕ
  phase : DashPhase
  retryScheduled : Bool
  retryDelayMs : ℕ
deriving DecidableEq

/-- Embedding of the response handling in `loadMyData`: on the not-found signal with
`restaurantCheckAttempts < 3`, increment the counter and schedule exactly one retry
with `setTimeout(..., 2000)`; on the signal with the counter exhausted, or on any
other error, settle in the final not-found state; on success, store the row. -/
def stepLookup (attempts : ℕ) (res : LookupRes) : StepOut :=
  match res with
  | .found r => ⟨attempts, .found r, false, 0⟩
  | .notFoundSig =>
    if attempts < 3 then ⟨attempts + 1, .checking, true, 2000⟩
    else ⟨attempts, .notFoundFinal, false, 0⟩
  | .otherErr => ⟨attempts, .notFoundFinal, false, 0⟩

/-- Run of the state machine against a sequence of lookup responses, counting the
scheduled retries; the machine stops at the first response that schedules no retry. -/
def runLookups : ℕ → List LookupRes → DashPhase × ℕ
  | _, [] => (.checking, 0)
  | attempts, res :: rest =>
    let o := stepLookup attempts res
    if o.retryScheduled then
      let r := runLookups o.attempts rest
      (r.1, r.2 + 1)
    else (o.phase, 0)

/-! ## Owner dashboard: order-queue assembly (`loadOrders`) and status update -/

/-- A full order header row of the `orders` table (`select('*')`). -/
structure OrderHeader where
  id : String
  created_at : ℕ
  status : String
  contact_name : String
  shipping_address : String
deriving DecidableEq

/-- One row of the line-item fetch
`order_items.select('order_id, name, price, quantity, food_items!inner(restaurant_id)')`;
`food_restaurant_id` is the joined food item's restaurant (or `none` when the inner
join has no food-item row, in which case the row is never returned). -/
structure LineRow where
  order_id : String
  name : String
  price : ℚ
  quantity : ℕ
  food_restaurant_id : Option String
deriving DecidableEq

/-- The projected line attached to an order
(`{ food_item_id: i.food_item_id, name, price, quantity }`; the select fetched no
`food_item_id`, so that slot is undefined). -/
structure ProjItem where
  food_item_id : Option String
  name : String
  price : ℚ
  quantity : ℕ
deriving DecidableEq

/-- An order as displayed in the queue: the header annotated with the restaurant's
own lines and `restaurant_subtotal`. -/
structure AnnOrder where
  header : OrderHeader
  order_items : List ProjItem
  restaurant_subtotal : ℚ
deriving DecidableEq

/-- The relevant tables of the external store. -/
structure Store where
  order_items : List LineRow
  orders : List OrderHeader

/-- Embedding of `Number.prototype.toFixed(2)` over `ℚ`: round to two decimals. -/
def toFixed2 (q : ℚ) : ℚ :=
  ((round (q * 100) : ℤ) : ℚ) / 100

/-- The line-item fetch: all `order_items` rows whose joined food item belongs to
the restaurant (the `.eq('food_items.restaurant_id', myRestaurant.id)` inner-join
filter). -/
def itemsFetch (s : Store) (rid : String) : List LineRow :=
  s.order_items.filter fun r => r.food_restaurant_id = some rid

/-- Descending creation-time order on headers. -/
def hdrGe (a b : OrderHeader) : Prop :=
  b.created_at ≤ a.created_at

instance : DecidableRel hdrGe := fun a b => Nat.decLe _ _

instance : IsTotal OrderHeader hdrGe :=
  ⟨fun a b => Nat.le_total b.created_at a.created_at⟩

instance : IsTrans OrderHeader hdrGe :=
  ⟨fun _ _ _ h1 h2 => Nat.le_trans h2 h1⟩

/-- The order-header fetch:
`orders.select('*').in('id', ids).order('created_at', { ascending: false })`. -/
def headersFetch (s : Store) (ids : List String) : List OrderHeader :=
  List.insertionSort hdrGe (s.orders.filter fun o => o.id ∈ ids)

/-- Projection of a fetched line into the attached shape. -/
def projectLine (r : LineRow) : ProjItem :=
  ⟨none, r.name, r.price, r.quantity⟩

/-- Contribution of one fetched line to the restaurant subtotal. -/
def lineSubtotal (r : LineRow) : ℚ :=
  r.price * (r.quantity : ℚ)

/-- Annotation of one header: attach the fetched lines bearing its id and compute
`restaurant_subtotal = (Σ price * quantity).toFixed(2)`. -/
def annotate (items : List LineRow) (o : OrderHeader) : AnnOrder :=
  let relevant := (items.filter fun r => r.order_id = o.id).map projectLine
  ⟨o, relevant, toFixed2 ((relevant.map fun i => i.price * (i.quantity : ℚ)).sum)⟩

/-- Result of an asynchronous fetch: rows, or a thrown error. -/
inductive FetchRes (α : Type) where
  | ok (rows : α)
  | fail

/-- The component state after one run of `loadOrders`: the order list, whether the
order-header fetch was issued, and whether an error was caught and logged. -/
structure LoadResult where
  orders : List AnnOrder
  headerFetchIssued : Bool
  errorLogged : Bool
deriving DecidableEq

/-- Embedding of `loadOrders`: a failed line fetch is caught (logged) leaving the
previous list; an empty line fetch clears the list without fetching headers; a
failed header fetch is caught leaving the previous list; otherwise every fetched
header is annotated with its lines. -/
def loadOrders (itemsRes : FetchRes (List LineRow))
    (headersRes : List String → FetchRes (List OrderHeader))
    (prev : List AnnOrder) : LoadResult :=
  match itemsRes with
  | .fail => ⟨prev, false, true⟩
  | .ok items =>
    let ids := dedupFirst (items.map (·.order_id))
    if ids = [] then ⟨[], false, false⟩
    else
      match headersRes ids with
      | .fail => ⟨prev, true, true⟩
      | .ok hdrs => ⟨hdrs.map (annotate items), true, false⟩

/-- The component state after one run of `updateOrderStatus`. -/
structure UpdResult where
  orders : List AnnOrder
  errorLogged : Bool
deriving DecidableEq

/-- Embedding of `updateOrderStatus`: on store acknowledgment patch only the
targeted order's status in the local list; on failure log the error and leave the
list untouched. -/
def updateOrderStatus (ack : Bool) (orders : List AnnOrder) (oid st : String) :
    UpdResult :=
  if ack then
    ⟨orders.map fun o =>
        if o.header.id = oid then { o with header := { o.header with status := st } }
        else o,
      false⟩
  else ⟨orders, true⟩

/-! ## Owner dashboard: status-filter persistence -/

/-- The fixed local-storage key (`STATUS_FILTER_KEY`). -/
def STATUS_FILTER_KEY : String :=
  "restaurantOwnerStatusFilter"

/-- The known order statuses (`ORDER_STATUSES`). -/
def ORDER_STATUSES : List String :=
  ["Pending", "Preparing", "Driver Assigned", "Out for Delivery", "Delivered",
   "Completed", "Cancelled"]

/-- Embedding of the mount-time initializer
`localStorage.getItem(STATUS_FILTER_KEY) || 'all'`. -/
def initStatusFilter (ls : String → Option String) : String :=
  match ls STATUS_FILTER_KEY with
  | some v => if v = "" then "all" else v
  | none => "all"

/-- Embedding of the persistence effect
`localStorage.setItem(STATUS_FILTER_KEY, statusFilter)`. -/
def writeStatusFilter (ls : String → Option String) (v : String) :
    String → Option String :=
  fun k => if k = STATUS_FILTER_KEY then some v else ls k

/-! ## Registration (`OwnerAuthPage.handleAuth`, sign-up branch) -/

/-- A row of the `restaurants` table as inserted by registration. -/
structure RestaurantRow where
  name : String
  address_street : String
  address_barangay : String
  category_id : String
  image_url : Option String
  owner_id : String
  is_open : Bool
deriving DecidableEq

/-- One externally visible operation of the registration handler: a store write or
read, or an awaited delay. -/
inductive RegOp where
  | ownerInsert (ownerId contactName : String) (phone : Option String)
  | restaurantInsertAttempt (row : RestaurantRow)
  | waitMs (n : ℕ)
  | verifySelect (ownerId : String)
deriving DecidableEq

/-- The user-facing message set by the registration handler. -/
inductive RegMessage where
  | silent
  | confirmEmail
  | registered (restName : String)
  | errorMsg
deriving DecidableEq

/-- The registration form fields relevant to the store writes. -/
structure RegForm where
  ownerName : String
  phoneNumber : String
  restaurantName : String
  addressStreet : String
  addressBarangay : String
  restaurantCategoryId : String
  restaurantImageUrl : String

/-- The restaurant row built by the insert
(`{ name, address_street, address_barangay, category_id, image_url || null,
owner_id, is_open: true }`). -/
def restaurantRowOf (form : RegForm) (uid : String) : RestaurantRow :=
  ⟨form.restaurantName, form.addressStreet, form.addressBarangay,
   form.restaurantCategoryId,
   (if form.restaurantImageUrl = "" then none else some form.restaurantImageUrl),
   uid, true⟩

/-- Embedding of the bounded-retry insert loop
(`let retries = 3; while (retries > 0 && !restaurantCreated) { ... }`): attempt the
insert; on success stop; on failure with `retries > 1` await 1000 ms, decrement and
retry; on the last failure throw. `insOk k` tells whether the `k`-th attempt
(0-based) succeeds. Returns the emitted operations and whether a row was created. -/
def insertLoop (insOk : ℕ → Bool) (row : RestaurantRow) :
    ℕ → ℕ → List RegOp × Bool
  | 0, _ => ([], false)
  | retries + 1, k =>
    if insOk k then ([.restaurantInsertAttempt row], true)
    else if retries + 1 > 1 then
      (.restaurantInsertAttempt row :: .waitMs 1000 ::
          (insertLoop insOk row retries (k + 1)).1,
       (insertLoop insOk row retries (k + 1)).2)
    else ([.restaurantInsertAttempt row], false)

/-- Embedding of `.eq('owner_id', uid).single()` on the restaurants table: exactly
one matching row, else the error path. -/
def singleByOwner (store : List RestaurantRow) (uid : String) : Option RestaurantRow :=
  match store.filter fun r => r.owner_id = uid with
  | [r] => some r
  | _ => none

/-- The outcome of the sign-up branch of `handleAuth`. -/
structure RegOutcome where
  ops : List RegOp
  store : List RestaurantRow
  message : RegMessage
  succeeded : Bool
  switchedToLogin : Bool

/-- Number of restaurant-insert attempts in an operation trace. -/
def countAttempts (ops : List RegOp) : ℕ :=
  ops.countP fun op =>
    match op with
    | .restaurantInsertAttempt _ => true
    | _ => false

/-- Embedding of the sign-up branch of `handleAuth` after `signUp` returned
`newUser` and a session flag: with a user and a live session, insert the owner
profile, run the bounded-retry restaurant insert, await 1500 ms, read the
restaurant back by owner id with `.single()`, and report success only if the row is
verified; with a null session, set the email-confirmation message and switch back
to the login view without touching the store. -/
def signUpRegistration (form : RegForm) (newUser : Option String) (hasSession : Bool)
    (ownerInsertOk : Bool) (insOk : ℕ → Bool) (store : List RestaurantRow) :
    RegOutcome :=
  match newUser, hasSession with
  | some uid, true =>
    let ownerOp := RegOp.ownerInsert uid form.ownerName
      (if form.phoneNumber = "" then none else some form.phoneNumber)
    if ownerInsertOk then
      let row := restaurantRowOf form uid
      let r := insertLoop insOk row 3 0
      if r.2 then
        let store' := store ++ [row]
        let opsV := ownerOp :: r.1 ++ [.waitMs 1500, .verifySelect uid]
        match singleByOwner store' uid with
        | some vr => ⟨opsV, store', .registered vr.name, true, false⟩
        | none => ⟨opsV, store', .errorMsg, false, false⟩
      else ⟨ownerOp :: r.1, store, .errorMsg, false, false⟩
    else ⟨[ownerOp], store, .errorMsg, false, false⟩
  | _, false => ⟨[], store, .confirmEmail, false, true⟩
  | none, true => ⟨[], store, .silent, false, false⟩

/-! ## Concrete fixtures used to evaluate the definitions -/

/-- A storage oracle with no resolvable public addresses. -/
def gp0 : String → String → Option String := fun _ _ => none

/-- A storage oracle that resolves one key in the first bucket. -/
def gpW : String → String → Option String := fun b k =>
  if b = "food-images" then
    if k = "menu/pic.png" then some "https://cdn.example/pic.png" else none
  else none

/-- An item sold by restaurant id `r1` named `Alpha`. -/
def cxItemA : HistItem :=
  ⟨"f1", "Adobo", 100, 1, none, some ⟨"r1", "f1", none, some ⟨"Alpha", none⟩⟩⟩

/-- An item sold by a different restaurant id `r2` with the same display name
`Alpha`. -/
def cxItemB : HistItem :=
  ⟨"f2", "Sisig", 50, 2, none, some ⟨"r2", "f2", none, some ⟨"Alpha", none⟩⟩⟩

/-- An order whose items come from two distinct restaurants sharing one display
name. -/
def cxOrder : HistOrder :=
  ⟨"o1", "Pending", 0, [cxItemA, cxItemB]⟩

/-- Scenario item: restaurant `A`, price 100, quantity 1. -/
def wItemA1 : HistItem :=
  ⟨"fa1", "Adobo", 100, 1, none, some ⟨"rA", "fa1", none, some ⟨"A", none⟩⟩⟩

/-- Scenario item: restaurant `A`, price 50, quantity 2. -/
def wItemA2 : HistItem :=
  ⟨"fa2", "Sisig", 50, 2, none, some ⟨"rA", "fa2", none, some ⟨"A", none⟩⟩⟩

/-- Scenario item: restaurant `B`, price 75, quantity 1. -/
def wItemB : HistItem :=
  ⟨"fb1", "Halo", 75, 1, none, some ⟨"rB", "fb1", none, some ⟨"B", none⟩⟩⟩

/-- An item with no resolvable restaurant (missing food-item join). -/
def wItemU : HistItem :=
  ⟨"fu", "Ghost", 10, 1, none, none⟩

/-- The section-8 scenario order: two items from `A`, one from `B`, plus one
unresolvable item. -/
def wOrder : HistOrder :=
  ⟨"o2", "Pending", 5, [wItemA1, wItemA2, wItemB, wItemU]⟩

/-- A concrete order header. -/
def wHeader1 : OrderHeader := ⟨"o1", 10, "Pending", "Ana", "Addr1"⟩

/-- A later concrete order header. -/
def wHeader2 : OrderHeader := ⟨"o2", 20, "Preparing", "Ben", "Addr2"⟩

/-- A header for an order of another restaurant. -/
def wHeader3 : OrderHeader := ⟨"o3", 30, "Pending", "Cai", "Addr3"⟩

/-- A concrete store with three lines of restaurant `rA` over two orders and one
line of restaurant `rB`. -/
def wStore : Store :=
  ⟨[⟨"o1", "Adobo", 100, 1, some "rA"⟩,
    ⟨"o1", "Sisig", 50, 2, some "rA"⟩,
    ⟨"o2", "Halo", 75, 1, some "rA"⟩,
    ⟨"o3", "Taho", 10, 1, some "rB"⟩],
   [wHeader1, wHeader2, wHeader3]⟩

/-- A concrete previously displayed order list. -/
def wPrev : List AnnOrder := [⟨wHeader1, [], 0⟩]

/-- A concrete fetched line list with a nonempty id set. -/
def wLines : List LineRow := [⟨"o1", "Adobo", 100, 1, some "rA"⟩]

/-- The registration form of the section-8 scenario (barangay `Tibanga`,
category id `7`). -/
def wForm : RegForm :=
  ⟨"Juan Dela Cruz", "", "Tibanga Grill", "", "Tibanga", "7", ""⟩

/-- Insert oracle failing the first two attempts and succeeding on the third. -/
def insOkThird : ℕ → Bool := fun k => decide (2 ≤ k)

/-- Insert oracle failing every attempt. -/
def insOkNever : ℕ → Bool := fun _ => false

/-- An empty local storage. -/
def ls0 : String → Option String := fun _ => none

/-- A concrete dashboard restaurant row. -/
def wDash : DashRestaurant := ⟨"rA", "Tibanga Grill"⟩

/-! ## Theorems -/

/-- C2: in the owner-dashboard visibility state machine, a retry is scheduled iff
the lookup returns the distinguished not-found signal with fewer than 3 attempts
made; every scheduled retry waits the fixed 2000 ms delay and increments the
counter by exactly one; three not-found responses followed by a success perform
exactly 3 retries before succeeding; and a run of only not-found responses
performs exactly 3 retries before settling in the final not-found state. -/
theorem c2_retry_state_machine :
    (∀ (attempts : ℕ) (res : LookupRes),
        ((stepLookup attempts res).retryScheduled = true ↔
          res = LookupRes.notFoundSig ∧ attempts < 3)
        ∧ ((stepLookup attempts res).retryScheduled = true →
            (stepLookup attempts res).attempts = attempts + 1
            ∧ (stepLookup attempts res).retryDelayMs = 2000))
    ∧ (∀ r : DashRestaurant,
        runLookups 0
            [LookupRes.notFoundSig, LookupRes.notFoundSig, LookupRes.notFoundSig,
             LookupRes.found r]
          = (DashPhase.found r, 3))
    ∧ runLookups 0
          [LookupRes.notFoundSig, LookupRes.notFoundSig, LookupRes.notFoundSig,
           LookupRes.notFoundSig]
        = (DashPhase.notFoundFinal, 3) := by
  refine ⟨fun attempts res => ?_, fun r => rfl, rfl⟩
  cases res with
  | found r => simp [stepLookup]
  | notFoundSig =>
    by_cases h : attempts < 3 <;> simp [stepLookup, h]
  | otherErr => simp [stepLookup]

/-- Witness for C2 at attempt counter 0 and a concrete restaurant row. -/
theorem c2_retry_state_machine_witness :
    (stepLookup 0 LookupRes.notFoundSig).retryScheduled = true
    ∧ (stepLookup 0 LookupRes.notFoundSig).attempts = 1
    ∧ (stepLookup 0 LookupRes.notFoundSig).retryDelayMs = 2000
    ∧ runLookups 0
          [LookupRes.notFoundSig, LookupRes.notFoundSig, LookupRes.notFoundSig,
           LookupRes.found wDash]
        = (DashPhase.found wDash, 3) :=
  ⟨(c2_retry_state_machine.1 0 LookupRes.notFoundSig).1.mpr ⟨rfl, by decide⟩,
   ((c2_retry_state_machine.1 0 LookupRes.notFoundSig).2 (by decide)).1,
   ((c2_retry_state_machine.1 0 LookupRes.notFoundSig).2 (by decide)).2,
   c2_retry_state_machine.2.1 wDash⟩

/-- C9: the status filter round-trips through the persisted preference: writing a
nonempty value (such as `Preparing`, one of the known statuses) and reading back
at mount restores it, and with nothing stored the filter defaults to `all`. -/
theorem c9_status_filter_roundtrip :
    (∀ ls : String → Option String,
        initStatusFilter (writeStatusFilter ls "Preparing") = "Preparing")
    ∧ (∀ (ls : String → Option String) (v : String), v ≠ "" →
        initStatusFilter (writeStatusFilter ls v) = v)
    ∧ (∀ ls : String → Option String,
        ls STATUS_FILTER_KEY = none → initStatusFilter ls = "all")
    ∧ "Preparing" ∈ ORDER_STATUSES := by
  refine ⟨fun ls => ?_, fun ls v hv => ?_, fun ls h => ?_, by decide⟩
  · simp [initStatusFilter, writeStatusFilter]
  · simp [initStatusFilter, writeStatusFilter, hv]
  · simp [initStatusFilter, h]

/-- Witness for C9 on the empty local storage. -/
theorem c9_status_filter_roundtrip_witness :
    initStatusFilter (writeStatusFilter ls0 "Preparing") = "Preparing"
    ∧ initStatusFilter ls0 = "all" :=
  ⟨c9_status_filter_roundtrip.1 ls0, c9_status_filter_roundtrip.2.2.1 ls0 rfl⟩

/-- C10: when sign-up returns a null session (email confirmation pending), the
registration handler issues no store operation at all (no owner insert, no
restaurant insert, no read-back), leaves the store unchanged, shows the
confirmation message, and switches back to the login view. -/
theorem c10_null_session_no_writes
    (form : RegForm) (newUser : Option String) (ownerInsertOk : Bool)
    (insOk : ℕ → Bool) (store : List RestaurantRow) :
    (signUpRegistration form newUser false ownerInsertOk insOk store).ops = []
    ∧ (signUpRegistration form newUser false ownerInsertOk insOk store).store = store
    ∧ (signUpRegistration form newUser false ownerInsertOk insOk store).message
        = RegMessage.confirmEmail
    ∧ (signUpRegistration form newUser false ownerInsertOk insOk store).succeeded
        = false
    ∧ (signUpRegistration form newUser false ownerInsertOk insOk store).switchedToLogin
        = true := by
  cases newUser <;> simp [signUpRegistration]

/-- Witness for C10 at a concrete form and store. -/
theorem c10_null_session_no_writes_witness :
    (signUpRegistration wForm (some "u1") false true insOkThird []).ops = []
    ∧ (signUpRegistration wForm (some "u1") false true insOkThird []).switchedToLogin
        = true :=
  ⟨(c10_null_session_no_writes wForm (some "u1") true insOkThird []).1,
   (c10_null_session_no_writes wForm (some "u1") true insOkThird []).2.2.2.2⟩

/-- C5: the displayed order list is atomic with respect to failures: a failed line
fetch aborts the assembly, logs the error and leaves the previous list unchanged;
a failed header fetch does the same; a failed status write logs the error and
leaves the list unchanged; and an acknowledged status write patches exactly the
targeted order's status, leaving every other order and every other field
unchanged. -/
theorem c5_failure_atomicity :
    (∀ (headersRes : List String → FetchRes (List OrderHeader)) (prev : List AnnOrder),
        loadOrders FetchRes.fail headersRes prev = ⟨prev, false, true⟩)
    ∧ (∀ (items : List LineRow) (prev : List AnnOrder),
        dedupFirst (items.map (·.order_id)) ≠ [] →
        loadOrders (FetchRes.ok items) (fun _ => FetchRes.fail) prev
          = ⟨prev, true, true⟩)
    ∧ (∀ (orders : List AnnOrder) (oid st : String),
        updateOrderStatus false orders oid st = ⟨orders, true⟩)
    ∧ (∀ (orders : List AnnOrder) (oid st : String),
        (updateOrderStatus true orders oid st).errorLogged = false
        ∧ (updateOrderStatus true orders oid st).orders.length = orders.length
        ∧ ∀ (k : ℕ) (hk : k < orders.length)
            (hk2 : k < (updateOrderStatus true orders oid st).orders.length),
            (orders[k].header.id ≠ oid →
              (updateOrderStatus true orders oid st).orders[k] = orders[k])
            ∧ (orders[k].header.id = oid →
                (updateOrderStatus true orders oid st).orders[k].header.status = st
                ∧ (updateOrderStatus true orders oid st).orders[k].header.id
                    = orders[k].header.id
                ∧ (updateOrderStatus true orders oid st).orders[k].header.created_at
                    = orders[k].header.created_at
                ∧ (updateOrderStatus true orders oid st).orders[k].header.contact_name
                    = orders[k].header.contact_name
                ∧ (updateOrderStatus true orders oid st).orders[k].header.shipping_address
                    = orders[k].header.shipping_address
                ∧ (updateOrderStatus true orders oid st).orders[k].order_items
                    = orders[k].order_items
                ∧ (updateOrderStatus true orders oid st).orders[k].restaurant_subtotal
                    = orders[k].restaurant_subtotal)) := by
  refine ⟨fun headersRes prev => rfl, fun items prev h => ?_, fun orders oid st => rfl,
    fun orders oid st => ⟨rfl, by simp [updateOrderStatus], fun k hk hk2 => ?_⟩⟩
  · simp only [loadOrders]
    rw [if_neg h]
  · constructor
    · intro hne
      simp [updateOrderStatus, List.getElem_map, hne]
    · intro heq
      simp [updateOrderStatus, List.getElem_map, heq]

/-- A nonempty string begins the trimmed value whenever the http test succeeds. -/
theorem ne_empty_of_isHttpVal {v : String} (h : isHttpVal v = true) : v ≠ "" := by
  intro hv
  rw [hv] at h
  exact absurd h (by decide)

/-- A nonempty string begins the trimmed value whenever the data test succeeds. -/
theorem ne_empty_of_isDataVal {v : String} (h : isDataVal v = true) : v ≠ "" := by
  intro hv
  rw [hv] at h
  exact absurd h (by decide)

/-- A list that extends (on the right) a list without leading matches has no
leading matches either. -/
theorem dropWhile_fix_of_append {α : Type} {p : α → Bool} {u t m : List α}
    (hm : m.dropWhile p = m) (h : u ++ t = m) : u.dropWhile p = u := by
  cases u with
  | nil => simp
  | cons x xs =>
    subst h
    have hx : p x = false := by
      by_contra hx
      rw [Bool.not_eq_false] at hx
      rw [List.cons_append, List.dropWhile_cons_of_pos hx] at hm
      have h1 := congrArg List.length hm
      have h2 := (List.dropWhile_sublist (p := p) (l := xs ++ t)).length_le
      simp only [List.length_cons] at h1
      omega
    exact List.dropWhile_cons_of_neg (by simp [hx])

/-- The embedded JS trim is idempotent. -/
theorem trimList_idem (l : List Char) : trimList (trimList l) = trimList l := by
  unfold trimList
  have h1 : (l.dropWhile isWS).dropWhile isWS = l.dropWhile isWS :=
    List.dropWhile_idempotent isWS l
  have h2 : ((l.dropWhile isWS).rdropWhile isWS).dropWhile isWS
      = (l.dropWhile isWS).rdropWhile isWS := by
    obtain ⟨t, ht⟩ := List.rdropWhile_prefix isWS (l.dropWhile isWS)
    exact dropWhile_fix_of_append h1 ht
  rw [h2, List.rdropWhile_idempotent]

/-- String-level idempotence of the embedded JS trim. -/
theorem jsTrim_idem (s : String) : jsTrim (jsTrim s) = jsTrim s := by
  show (⟨trimList (trimList s.data)⟩ : String) = ⟨trimList s.data⟩
  rw [trimList_idem]

/-- Unfolding of `resolveImage` on a fully qualified or inline-encoded value. -/
theorem resolveImage_some_qualified (gp : String → String → Option String)
    {s : String} (hs : s ≠ "")
    (h : (isHttpVal (jsTrim s) || isDataVal (jsTrim s)) = true) :
    resolveImage gp (some s) = some (jsTrim s) := by
  simp only [resolveImage]
  rw [if_neg hs, if_pos h]

/-- Unfolding of `resolveImage` on a storage-key value. -/
theorem resolveImage_some_key (gp : String → String → Option String)
    {s : String} (hs : s ≠ "")
    (h : (isHttpVal (jsTrim s) || isDataVal (jsTrim s)) = false) :
    resolveImage gp (some s) = probeBuckets gp bucketsToTry (stripSlashes (jsTrim s)) := by
  simp only [resolveImage]
  rw [if_neg hs, if_neg (by simp [h])]

/-- A value whose trimmed form is itself and which passes the http or data test
resolves to itself. -/
theorem resolveImage_fixpoint (gp : String → String → Option String)
    {r : String} (hr : jsTrim r = r)
    (h : isHttpVal r = true ∨ isDataVal r = true) :
    resolveImage gp (some r) = some r := by
  have hne : r ≠ "" := by
    cases h with
    | inl h => exact ne_empty_of_isHttpVal h
    | inr h => exact ne_empty_of_isDataVal h
  have hb : (isHttpVal (jsTrim r) || isDataVal (jsTrim r)) = true := by
    rw [hr]
    cases h with
    | inl h => simp [h]
    | inr h => simp [h]
  rw [resolveImage_some_qualified gp hne hb, hr]

/-- Every address returned by a successful probe comes from the storage oracle. -/
theorem probeBuckets_mem (gp : String → String → Option String)
    {bs : List String} {key u : String} (h : probeBuckets gp bs key = some u) :
    ∃ b ∈ bs, gp b key = some u := by
  induction bs with
  | nil => exact absurd h (by simp [probeBuckets])
  | cons b rest ih =>
    cases hg : gp b key with
    | none =>
      simp only [probeBuckets, hg] at h
      obtain ⟨b2, hb2, hgb2⟩ := ih h
      exact ⟨b2, List.mem_cons_of_mem b hb2, hgb2⟩
    | some url =>
      simp only [probeBuckets, hg] at h
      by_cases hu : url = ""
      · rw [if_pos hu] at h
        obtain ⟨b2, hb2, hgb2⟩ := ih h
        exact ⟨b2, List.mem_cons_of_mem b hb2, hgb2⟩
      · rw [if_neg hu] at h
        exact ⟨b, List.mem_cons_self b rest, by rw [hg, h]⟩

/-- C7: image resolution returns no image for a missing or empty reference,
returns a trim-invariant fully qualified (http/https) or inline-encoded (data:)
reference verbatim, and otherwise strips leading slashes from the trimmed
reference and probes the two storage locations in order, returning the first
truthy public address, swallowing individual probe failures, and returning no
image when no location yields an address. -/
theorem c7_image_resolution (gp : String → String → Option String) :
    resolveImage gp none = none
    ∧ resolveImage gp (some "") = none
    ∧ (∀ r : String, jsTrim r = r →
        (isHttpVal r = true ∨ isDataVal r = true) →
        resolveImage gp (some r) = some r)
    ∧ (∀ r : String, r ≠ "" →
        isHttpVal (jsTrim r) = false → isDataVal (jsTrim r) = false →
        (∀ u, gp "food-images" (stripSlashes (jsTrim r)) = some u → u ≠ "" →
            resolveImage gp (some r) = some u)
        ∧ ((gp "food-images" (stripSlashes (jsTrim r)) = none
              ∨ gp "food-images" (stripSlashes (jsTrim r)) = some "") →
            (∀ u, gp "restaurant-images" (stripSlashes (jsTrim r)) = some u →
                u ≠ "" → resolveImage gp (some r) = some u)
            ∧ ((gp "restaurant-images" (stripSlashes (jsTrim r)) = none
                  ∨ gp "restaurant-images" (stripSlashes (jsTrim r)) = some "") →
                resolveImage gp (some r) = none))) := by
  refine ⟨rfl, rfl, fun r hr h => resolveImage_fixpoint gp hr h, fun r hne h1 h2 => ?_⟩
  have hkey : resolveImage gp (some r)
      = probeBuckets gp bucketsToTry (stripSlashes (jsTrim r)) :=
    resolveImage_some_key gp hne (by simp [h1, h2])
  constructor
  · intro u hu hune
    rw [hkey]
    simp [bucketsToTry, probeBuckets, hu, hune]
  · intro hfood
    constructor
    · intro u hu hune
      rw [hkey]
      cases hfood with
      | inl h => simp [bucketsToTry, probeBuckets, h, hu, hune]
      | inr h => simp [bucketsToTry, probeBuckets, h, hu, hune]
    · intro hrest
      rw [hkey]
      cases hfood with
      | inl h =>
        cases hrest with
        | inl h2 => simp [bucketsToTry, probeBuckets, h, h2]
        | inr h2 => simp [bucketsToTry, probeBuckets, h, h2]
      | inr h =>
        cases hrest with
        | inl h2 => simp [bucketsToTry, probeBuckets, h, h2]
        | inr h2 => simp [bucketsToTry, probeBuckets, h, h2]

/-- Witness for C7: a null reference, a qualified reference, and a key reference
that resolves in the first bucket. -/
theorem c7_image_resolution_witness :
    resolveImage gpW none = none
    ∧ resolveImage gpW (some "https://cdn.example/pic.png")
        = some "https://cdn.example/pic.png"
    ∧ resolveImage gpW (some "/menu/pic.png") = some "https://cdn.example/pic.png" :=
  ⟨(c7_image_resolution gpW).1,
   (c7_image_resolution gpW).2.2.1 "https://cdn.example/pic.png" (by decide)
     (Or.inl (by decide)),
   ((c7_image_resolution gpW).2.2.2 "/menu/pic.png" (by decide) (by decide)
       (by decide)).1 "https://cdn.example/pic.png" (by decide) (by decide)⟩

/-- C8: assuming the storage oracle returns only trim-invariant http(s) public
addresses, image resolution is idempotent (resolving a resolved result returns it
unchanged), and every trim-invariant fully qualified http(s) address resolves to
itself under any oracle. -/
theorem c8_image_resolution_idempotent (gp : String → String → Option String)
    (hgp : ∀ b k u, gp b k = some u → jsTrim u = u ∧ isHttpVal u = true) :
    (∀ raw : Option String,
        resolveImage gp (resolveImage gp raw) = resolveImage gp raw)
    ∧ (∀ r : String, jsTrim r = r → isHttpVal r = true →
        resolveImage gp (some r) = some r) := by
  constructor
  · intro raw
    cases hres : resolveImage gp raw with
    | none => rfl
    | some a =>
      cases raw with
      | none => exact absurd hres (by simp [resolveImage])
      | some s =>
        by_cases hs : s = ""
        · rw [hs] at hres
          exact absurd hres (by simp [resolveImage])
        · by_cases hq : (isHttpVal (jsTrim s) || isDataVal (jsTrim s)) = true
          · rw [resolveImage_some_qualified gp hs hq] at hres
            have ha : a = jsTrim s := (Option.some.injEq _ _).mp hres.symm
            subst ha
            exact resolveImage_fixpoint gp (jsTrim_idem s)
              (by rcases Bool.or_eq_true_iff.mp hq with h | h
                  · exact Or.inl h
                  · exact Or.inr h)
          · rw [resolveImage_some_key gp hs (by simpa using hq)] at hres
            obtain ⟨b, _, hgb⟩ := probeBuckets_mem gp hres
            obtain ⟨htrim, hhttp⟩ := hgp _ _ _ hgb
            exact resolveImage_fixpoint gp htrim (Or.inl hhttp)
  · intro r hr hh
    exact resolveImage_fixpoint gp hr (Or.inl hh)

/-- Witness for C8 with the single-key oracle, which returns only a trim-invariant
https address. -/
theorem c8_image_resolution_idempotent_witness :
    resolveImage gpW (resolveImage gpW (some "/menu/pic.png"))
        = resolveImage gpW (some "/menu/pic.png")
    ∧ resolveImage gpW (some "http://a.example/x.png")
        = some "http://a.example/x.png" :=
  have hgp : ∀ b k u, gpW b k = some u → jsTrim u = u ∧ isHttpVal u = true := by
    intro b k u h
    by_cases hb : b = "food-images"
    · by_cases hk : k = "menu/pic.png"
      · simp only [gpW, hb, hk, if_pos rfl] at h
        rw [← Option.some.injEq] at h
        cases h
        exact ⟨by decide, by decide⟩
      · simp [gpW, hb, hk] at h
    · simp [gpW, hb] at h
  ⟨(c8_image_resolution_idempotent gpW hgp).1 (some "/menu/pic.png"),
   (c8_image_resolution_idempotent gpW hgp).2 "http://a.example/x.png" (by decide)
     (by decide)⟩

/-- Membership is preserved by first-occurrence deduplication. -/
theorem mem_dedupFirst {α : Type} [DecidableEq α] {a : α} {l : List α} :
    a ∈ dedupFirst l ↔ a ∈ l := by
  induction l with
  | nil => simp [dedupFirst]
  | cons x xs ih =>
    simp only [dedupFirst, List.mem_cons, List.mem_filter, decide_eq_true_eq]
    constructor
    · rintro (rfl | ⟨h1, _⟩)
      · exact Or.inl rfl
      · exact Or.inr (ih.mp h1)
    · rintro (rfl | h)
      · exact Or.inl rfl
      · by_cases hax : a = x
        · exact Or.inl hax
        · exact Or.inr ⟨ih.mpr h, hax⟩

/-- First-occurrence deduplication yields no duplicates. -/
theorem nodup_dedupFirst {α : Type} [DecidableEq α] (l : List α) :
    (dedupFirst l).Nodup := by
  induction l with
  | nil => simp [dedupFirst]
  | cons x xs ih =>
    rw [dedupFirst, List.nodup_cons]
    constructor
    · intro hx
      have h2 := (List.mem_filter.mp hx).2
      simp at h2
    · exact ih.filter _

/-- First-occurrence deduplication is empty exactly on the empty list. -/
theorem dedupFirst_eq_nil {α : Type} [DecidableEq α] {l : List α} :
    dedupFirst l = [] ↔ l = [] := by
  cases l <;> simp [dedupFirst]

/-- Appending one element to the input of first-occurrence deduplication. -/
theorem dedupFirst_concat {α : Type} [DecidableEq α] (l : List α) (a : α) :
    dedupFirst (l ++ [a])
      = if a ∈ l then dedupFirst l else dedupFirst l ++ [a] := by
  induction l with
  | nil => simp [dedupFirst]
  | cons x xs ih =>
    rw [List.cons_append, dedupFirst, ih]
    by_cases hmem : a ∈ xs
    · rw [if_pos hmem, if_pos (List.mem_cons_of_mem x hmem), dedupFirst]
    · by_cases hax : a = x
      · subst hax
        rw [if_neg hmem, if_pos (List.mem_cons_self a xs), List.filter_append,
          dedupFirst]
        simp
      · rw [if_neg hmem, if_neg (by simp [hax, hmem]), List.filter_append,
          dedupFirst]
        simp [hax]

/-- Enrichment only replaces the image slot, so it preserves the resolved
restaurant. -/
theorem restInfoOf_enrich (gp : String → String → Option String) (i : HistItem) :
    restInfoOf (enrichItem gp i) = restInfoOf i := rfl

/-- Enrichment preserves the grouping key. -/
theorem resNameOf_enrich (gp : String → String → Option String) (i : HistItem) :
    resNameOf (enrichItem gp i) = resNameOf i := rfl

/-- Enrichment preserves resolvability. -/
theorem resolvable_enrich (gp : String → String → Option String) (i : HistItem) :
    resolvable (enrichItem gp i) = resolvable i := rfl

/-- Enrichment preserves the line subtotal. -/
theorem itemSubtotal_enrich (gp : String → String → Option String) (i : HistItem) :
    itemSubtotal (enrichItem gp i) = itemSubtotal i := rfl

/-- An item is resolvable exactly when it has a grouping key. -/
theorem resolvable_eq_isSome (i : HistItem) :
    resolvable i = (resNameOf i).isSome := by
  unfold resolvable resNameOf
  cases restInfoOf i <;> rfl

/-- The grouping keys of a one-longer item list. -/
theorem resNames_concat (l : List HistItem) (i : HistItem) :
    resNames (l ++ [i]) = resNames l ++ (resNameOf i).toList := by
  unfold resNames
  rw [List.filterMap_append]
  cases h : resNameOf i <;> simp [List.filterMap_cons, h]

/-- The grouping keys of an item list with a head. -/
theorem resNames_cons (i : HistItem) (l : List HistItem) :
    resNames (i :: l) = (resNameOf i).toList ++ resNames l := by
  unfold resNames
  cases h : resNameOf i <;> simp [List.filterMap_cons, h]

/-- Enrichment preserves the grouping keys of a list. -/
theorem resNames_map_enrich (gp : String → String → Option String)
    (l : List HistItem) : resNames (l.map (enrichItem gp)) = resNames l := by
  unfold resNames
  rw [List.filterMap_map]
  rfl

/-- Collecting the items of one restaurant name over a one-longer list. -/
theorem itemsWithName_concat (l : List HistItem) (i : HistItem) (n : String) :
    itemsWithName (l ++ [i]) n
      = itemsWithName l n ++ if resNameOf i = some n then [i] else [] := by
  unfold itemsWithName
  rw [List.filter_append]
  congr 1
  by_cases h : resNameOf i = some n <;> simp [h]

/-- Collecting the items of one restaurant name over a list with a head. -/
theorem itemsWithName_cons (i : HistItem) (l : List HistItem) (n : String) :
    itemsWithName (i :: l) n
      = (if resNameOf i = some n then [i] else []) ++ itemsWithName l n := by
  unfold itemsWithName
  rw [List.filter_cons]
  by_cases h : resNameOf i = some n <;> simp [h]

/-- Enrichment commutes with collecting the items of one restaurant name. -/
theorem itemsWithName_map_enrich (gp : String → String → Option String)
    (l : List HistItem) (n : String) :
    itemsWithName (l.map (enrichItem gp)) n
      = (itemsWithName l n).map (enrichItem gp) := by
  unfold itemsWithName
  rw [List.filter_map]
  rfl

/-- Enrichment commutes with restricting to resolvable items. -/
theorem filter_resolvable_map_enrich (gp : String → String → Option String)
    (l : List HistItem) :
    (l.map (enrichItem gp)).filter resolvable
      = (l.filter resolvable).map (enrichItem gp) := by
  rw [List.filter_map]
  rfl

/-- Enrichment preserves a sum of line subtotals. -/
theorem sumSubtotals_map_enrich (gp : String → String → Option String)
    (l : List HistItem) : sumSubtotals (l.map (enrichItem gp)) = sumSubtotals l := by
  unfold sumSubtotals
  rw [List.map_map]
  rfl

/-- A name occurs among the grouping keys exactly when some item carries it. -/
theorem mem_resNames_iff {n : String} {l : List HistItem} :
    n ∈ resNames l ↔ itemsWithName l n ≠ [] := by
  unfold resNames itemsWithName
  rw [List.mem_filterMap]
  constructor
  · rintro ⟨i, hi, hni⟩ h0
    have hmem : i ∈ l.filter fun i => resNameOf i = some n :=
      List.mem_filter.mpr ⟨hi, by simp [hni]⟩
    rw [h0] at hmem
    exact absurd hmem (List.not_mem_nil i)
  · intro h0
    obtain ⟨i, hi⟩ := List.exists_mem_of_ne_nil _ h0
    have hm := List.mem_filter.mp hi
    exact ⟨i, hm.1, by simpa using hm.2⟩

/-- The group built for one name depends only on the items carrying that name. -/
theorem mkGroup_congr {l1 l2 : List HistItem} {n : String}
    (h : itemsWithName l1 n = itemsWithName l2 n) : mkGroup l1 n = mkGroup l2 n := by
  unfold mkGroup firstRid sumSubtotals
  rw [h]

/-- The head of a nonempty list is unchanged by appending. -/
theorem head?_append_left {α : Type} (l l' : List α) (h : l ≠ []) :
    (l ++ l').head? = l.head? := by
  cases l with
  | nil => exact absurd rfl h
  | cons x xs => rfl

/-- Lookup in a keyed map-form accumulator. -/
theorem lookupA_map (l : List String) (F : String → SegGroup) (r : String) :
    lookupA (l.map fun n => (n, F n)) r = if r ∈ l then some (F r) else none := by
  induction l with
  | nil => simp [lookupA]
  | cons x xs ih =>
    simp only [List.map_cons, lookupA, ih]
    by_cases hx : x = r
    · subst hx
      simp
    · rw [if_neg hx]
      by_cases hm : r ∈ xs
      · rw [if_pos hm, if_pos (List.mem_cons_of_mem x hm)]
      · rw [if_neg hm, if_neg (by
          simp only [List.mem_cons, not_or]
          exact ⟨fun e => hx (Eq.symm e), hm⟩)]

/-- Update of a keyed map-form accumulator. -/
theorem updateA_map (l : List String) (F : String → SegGroup) (r : String)
    (f : SegGroup → SegGroup) :
    updateA (l.map fun n => (n, F n)) r f
      = l.map fun n => (n, if n = r then f (F n) else F n) := by
  unfold updateA
  rw [List.map_map]
  apply List.map_congr_left
  intro n _
  by_cases h : n = r <;> simp [h]

/-- Update distributes over accumulator concatenation. -/
theorem updateA_append (a b : List (String × SegGroup)) (k : String)
    (f : SegGroup → SegGroup) :
    updateA (a ++ b) k f = updateA a k f ++ updateA b k f := by
  unfold updateA
  rw [List.map_append]

/-- Updating an absent key leaves a keyed map-form accumulator unchanged. -/
theorem updateA_not_mem (l : List String) (F : String → SegGroup) (r : String)
    (f : SegGroup → SegGroup) (h : r ∉ l) :
    updateA (l.map fun n => (n, F n)) r f = l.map fun n => (n, F n) := by
  rw [updateA_map]
  apply List.map_congr_left
  intro n hn
  have : n ≠ r := fun e => h (e ▸ hn)
  simp [this]

/-- Unfolding of one grouping step on an unresolvable item. -/
theorem groupStep_none {acc : List (String × SegGroup)} {i : HistItem}
    (h : restInfoOf i = none) : groupStep acc i = acc := by
  simp only [groupStep, h]

/-- Unfolding of one grouping step on a resolvable item. -/
theorem groupStep_some {acc : List (String × SegGroup)} {i : HistItem}
    {rname rid : String} (h : restInfoOf i = some (rname, rid)) :
    groupStep acc i
      = updateA
          (if (lookupA acc rname).isSome then acc
           else acc ++ [(rname, ⟨rname, rid, [], 0⟩)]) rname
          (fun g =>
            { g with
                items := g.items ++ [i]
                subtotal := g.subtotal + i.price * (i.quantity : ℚ) }) := by
  simp only [groupStep, h]

/-- Master characterization of the grouping fold: it builds exactly one group per
distinct resolvable restaurant name, in first-encounter order, whose items are the
items carrying that name, whose subtotal is their summed `price * quantity`, and
whose recorded restaurant id is the first such item's `restaurant_id`. -/
theorem groupFold_spec (items : List HistItem) :
    items.foldl groupStep []
      = (distinctNames items).map fun n => (n, mkGroup items n) := by
  induction items using List.reverseRecOn with
  | nil => rfl
  | append_singleton l i ih =>
    rw [List.foldl_append, List.foldl_cons, List.foldl_nil, ih]
    cases hri : restInfoOf i with
    | none =>
      have hrn : resNameOf i = none := by simp [resNameOf, hri]
      rw [groupStep_none hri]
      have h1 : distinctNames (l ++ [i]) = distinctNames l := by
        unfold distinctNames
        rw [resNames_concat, hrn]
        simp
      rw [h1]
      apply List.map_congr_left
      intro n _
      have h2 : itemsWithName (l ++ [i]) n = itemsWithName l n := by
        rw [itemsWithName_concat, if_neg (by simp [hrn])]
        simp
      rw [mkGroup_congr h2.symm]
    | some pr =>
      obtain ⟨r, rid⟩ := pr
      have hrn : resNameOf i = some r := by simp [resNameOf, hri]
      rw [groupStep_some hri, lookupA_map]
      by_cases hmem : r ∈ distinctNames l
      · have hmem' : r ∈ resNames l := mem_dedupFirst.mp hmem
        rw [if_pos hmem]
        simp only [Option.isSome_some, if_true]
        rw [updateA_map]
        have h1 : distinctNames (l ++ [i]) = distinctNames l := by
          unfold distinctNames
          rw [resNames_concat, hrn]
          show dedupFirst (resNames l ++ [r]) = _
          rw [dedupFirst_concat, if_pos hmem']
        rw [h1]
        apply List.map_congr_left
        intro n hn
        by_cases hnr : n = r
        · subst hnr
          rw [if_pos rfl]
          have hiw : itemsWithName (l ++ [i]) n = itemsWithName l n ++ [i] := by
            rw [itemsWithName_concat, if_pos hrn]
          have hne : itemsWithName l n ≠ [] := mem_resNames_iff.mp hmem'
          simp only [mkGroup, Prod.mk.injEq, SegGroup.mk.injEq, true_and]
          refine ⟨?_, ?_, ?_⟩
          · unfold firstRid
            rw [hiw, head?_append_left _ _ hne]
          · rw [hiw]
          · unfold sumSubtotals
            rw [hiw, List.map_append, List.sum_append]
            simp [itemSubtotal]
        · rw [if_neg hnr]
          have h2 : itemsWithName (l ++ [i]) n = itemsWithName l n := by
            rw [itemsWithName_concat,
              if_neg (by rw [hrn]; exact fun hc => hnr (Option.some.inj hc).symm)]
            simp
          rw [mkGroup_congr h2.symm]
      · have hmem' : r ∉ resNames l := fun hc => hmem (mem_dedupFirst.mpr hc)
        rw [if_neg hmem]
        simp only [Option.isSome_none, Bool.false_eq_true, if_false]
        rw [updateA_append, updateA_not_mem _ _ _ _ hmem]
        have h1 : distinctNames (l ++ [i]) = distinctNames l ++ [r] := by
          unfold distinctNames
          rw [resNames_concat, hrn]
          show dedupFirst (resNames l ++ [r]) = _
          rw [dedupFirst_concat, if_neg hmem']
        rw [h1, List.map_append]
        congr 1
        · apply List.map_congr_left
          intro n hn
          have hnr : n ≠ r := fun e => hmem (e ▸ hn)
          have h2 : itemsWithName (l ++ [i]) n = itemsWithName l n := by
            rw [itemsWithName_concat,
              if_neg (by rw [hrn]; exact fun hc => hnr (Option.some.inj hc).symm)]
            simp
          rw [mkGroup_congr h2.symm]
        · have hiw0 : itemsWithName l r = [] := by
            by_contra hc
            exact hmem' (mem_resNames_iff.mpr hc)
          have hiw : itemsWithName (l ++ [i]) r = [i] := by
            rw [itemsWithName_concat, if_pos hrn, hiw0]
            rfl
          have hfr : firstRid (l ++ [i]) r = rid := by
            unfold firstRid
            rw [hiw]
            simp [ridOf, hri]
          have hsum : sumSubtotals (itemsWithName (l ++ [i]) r)
              = i.price * (i.quantity : ℚ) := by
            rw [hiw]
            simp [sumSubtotals, itemSubtotal]
          simp [updateA, mkGroup, hiw, hfr, hsum, sumSubtotals, itemSubtotal]

/-- Enrichment preserves the recorded restaurant id. -/
theorem ridOf_enrich (gp : String → String → Option String) (i : HistItem) :
    ridOf (enrichItem gp i) = ridOf i := rfl

/-- Closed form of the per-order segmentation: one segment per distinct resolvable
restaurant name of the enriched items, carrying that name's items, their summed
subtotal, and the display id built from the first such item's restaurant id. -/
theorem segmentsOfOrder_eq (gp : String → String → Option String) (o : HistOrder) :
    segmentsOfOrder gp o
      = (distinctNames (o.order_items.map (enrichItem gp))).map fun n =>
          { id := o.id
            status := o.status
            displayId :=
              o.id ++ "-" ++ firstRid (o.order_items.map (enrichItem gp)) n
            restaurantName := n
            order_items := itemsWithName (o.order_items.map (enrichItem gp)) n
            total := sumSubtotals (itemsWithName (o.order_items.map (enrichItem gp)) n)
            createdAt := o.created_at
            isSegment := true } := by
  simp only [segmentsOfOrder]
  rw [groupFold_spec, List.map_map]
  apply List.map_congr_left
  intro n _
  simp [Function.comp, mkGroup]

/-- Flattening respects permutation of the outer list. -/
theorem perm_flatten {α : Type} {L1 L2 : List (List α)} (h : L1.Perm L2) :
    L1.flatten.Perm L2.flatten := by
  induction h with
  | nil => rfl
  | cons x _ ih => simpa using ih.append_left x
  | swap x y l =>
    simp only [List.flatten_cons]
    rw [← List.append_assoc, ← List.append_assoc]
    exact List.perm_append_comm.append_right _
  | trans _ _ ih1 ih2 => exact ih1.trans ih2

/-- The groups' item lists together are a permutation of the resolvable items:
no resolvable item is lost, split or duplicated by the grouping, and no
unresolvable item appears. -/
theorem flatten_groups_perm (items : List HistItem) :
    ((distinctNames items).map fun n => itemsWithName items n).flatten.Perm
      (items.filter resolvable) := by
  induction items with
  | nil => rfl
  | cons i rest ih =>
    cases hrn : resNameOf i with
    | none =>
      have hres : resolvable i = false := by
        rw [resolvable_eq_isSome, hrn]
        rfl
      have h1 : distinctNames (i :: rest) = distinctNames rest := by
        unfold distinctNames
        rw [resNames_cons, hrn]
        rfl
      have h2 : (i :: rest).filter resolvable = rest.filter resolvable := by
        rw [List.filter_cons, if_neg (by simp [hres])]
      have h3 : ∀ n ∈ distinctNames rest,
          itemsWithName (i :: rest) n = itemsWithName rest n := by
        intro n _
        rw [itemsWithName_cons, if_neg (by simp [hrn])]
        rfl
      rw [h1, h2, List.map_congr_left h3]
      exact ih
    | some r =>
      have hres : resolvable i = true := by
        rw [resolvable_eq_isSome, hrn]
        rfl
      have h1 : distinctNames (i :: rest)
          = r :: (distinctNames rest).filter (· ≠ r) := by
        unfold distinctNames
        rw [resNames_cons, hrn]
        rfl
      have h2 : (i :: rest).filter resolvable = i :: rest.filter resolvable := by
        rw [List.filter_cons, if_pos (by simp [hres])]
      have hiw : itemsWithName (i :: rest) r = i :: itemsWithName rest r := by
        rw [itemsWithName_cons, if_pos hrn]
        rfl
      have h3 : ∀ n ∈ (distinctNames rest).filter (· ≠ r),
          itemsWithName (i :: rest) n = itemsWithName rest n := by
        intro n hn
        have hnr : n ≠ r := by
          have := (List.mem_filter.mp hn).2
          simpa using this
        rw [itemsWithName_cons,
          if_neg (by rw [hrn]; exact fun hc => hnr (Eq.symm (Option.some.inj hc)))]
        rfl
      rw [h1, h2, List.map_cons, List.flatten_cons, hiw, List.map_congr_left h3,
        List.cons_append]
      apply List.Perm.cons
      by_cases hmem : r ∈ distinctNames rest
      · have hnd : (distinctNames rest).Nodup := nodup_dedupFirst _
        have hperm : (distinctNames rest).Perm
            (r :: (distinctNames rest).filter (· ≠ r)) := by
          have h4 := List.perm_cons_erase hmem
          rw [hnd.erase_eq_filter] at h4
          have hpred : (fun x : String => x != r) = fun x => decide (x ≠ r) := by
            funext x
            by_cases h : x = r <;> simp [h]
          rwa [hpred] at h4
        have hp3 := perm_flatten (hperm.map fun n => itemsWithName rest n)
        rw [List.map_cons, List.flatten_cons] at hp3
        exact hp3.symm.trans ih
      · have hiw0 : itemsWithName rest r = [] := by
          by_contra hc
          exact hmem (mem_dedupFirst.mpr (mem_resNames_iff.mpr hc))
        have hfix : (distinctNames rest).filter (· ≠ r) = distinctNames rest := by
          apply List.filter_eq_self.mpr
          intro a ha
          simpa using fun e : a = r => hmem (e ▸ ha)
        rw [hiw0, hfix]
        simpa using ih

/-- Summing per-group sums equals summing over the flattened groups. -/
theorem sum_over_groups {β : Type} (g : β → List HistItem) (L : List β) :
    (L.map fun n => ((g n).map itemSubtotal).sum).sum
      = ((L.map g).flatten.map itemSubtotal).sum := by
  induction L with
  | nil => rfl
  | cons x xs ih =>
    simp only [List.map_cons, List.flatten_cons, List.sum_cons, List.map_append,
      List.sum_append, ih]

/-- The groups' subtotals together sum to the resolvable items' summed
`price * quantity`. -/
theorem sum_group_totals (items : List HistItem) :
    ((distinctNames items).map fun n => sumSubtotals (itemsWithName items n)).sum
      = sumSubtotals (items.filter resolvable) := by
  unfold sumSubtotals
  rw [sum_over_groups]
  exact ((flatten_groups_perm items).map itemSubtotal).sum_eq

/-- C1 as stated fails on the code: an order whose two resolvable items come from
two distinct restaurants (ids `r1` and `r2`) that share one display name yields a
single segment, not two. -/
theorem c1_counterexample :
    (∀ i ∈ cxOrder.order_items, resolvable i = true)
    ∧ (distinctRids cxOrder.order_items).length = 2
    ∧ (segmentsOfOrder gp0 cxOrder).length = 1 := by
  decide

/-- C1 (amended): segmentation produces exactly one segment per distinct
resolvable restaurant display name (so n segments when the n restaurants carry
pairwise distinct names); each segment contains only items whose resolved
restaurant name matches the segment's; the segments' item lists together are
exactly the enriched resolvable items, with no item split or duplicated; the
segments' subtotals sum to `price * quantity` summed over the resolvable items;
and items with no resolvable restaurant appear in no segment. -/
theorem c1_segmentation_by_name (gp : String → String → Option String)
    (o : HistOrder) :
    (segmentsOfOrder gp o).length = (distinctNames o.order_items).length
    ∧ (∀ s ∈ segmentsOfOrder gp o, ∀ j ∈ s.order_items,
        resNameOf j = some s.restaurantName)
    ∧ ((segmentsOfOrder gp o).map Segment.order_items).flatten.Perm
        ((o.order_items.filter resolvable).map (enrichItem gp))
    ∧ ((segmentsOfOrder gp o).map Segment.total).sum
        = sumSubtotals (o.order_items.filter resolvable)
    ∧ (∀ i ∈ o.order_items, resolvable i = false →
        ∀ s ∈ segmentsOfOrder gp o, enrichItem gp i ∉ s.order_items) := by
  have hE : distinctNames (o.order_items.map (enrichItem gp))
      = distinctNames o.order_items := by
    unfold distinctNames
    rw [resNames_map_enrich]
  refine ⟨?_, ?_, ?_, ?_, ?_⟩
  · rw [segmentsOfOrder_eq, List.length_map, hE]
  · intro s hs j hj
    rw [segmentsOfOrder_eq] at hs
    obtain ⟨n, _, rfl⟩ := List.mem_map.mp hs
    have h2 := (List.mem_filter.mp hj).2
    simpa using h2
  · have hmaps : (segmentsOfOrder gp o).map Segment.order_items
        = (distinctNames (o.order_items.map (enrichItem gp))).map
            fun n => itemsWithName (o.order_items.map (enrichItem gp)) n := by
      rw [segmentsOfOrder_eq, List.map_map]
      rfl
    rw [hmaps]
    have hp := flatten_groups_perm (o.order_items.map (enrichItem gp))
    rwa [filter_resolvable_map_enrich] at hp
  · have hmapt : (segmentsOfOrder gp o).map Segment.total
        = (distinctNames (o.order_items.map (enrichItem gp))).map
            fun n =>
              sumSubtotals (itemsWithName (o.order_items.map (enrichItem gp)) n) := by
      rw [segmentsOfOrder_eq, List.map_map]
      rfl
    rw [hmapt, sum_group_totals, filter_resolvable_map_enrich,
      sumSubtotals_map_enrich]
  · intro i _ hres s hs hmem
    rw [segmentsOfOrder_eq] at hs
    obtain ⟨n, _, rfl⟩ := List.mem_map.mp hs
    have h2 := (List.mem_filter.mp hmem).2
    have h3 : resNameOf (enrichItem gp i) = some n := by simpa using h2
    rw [resNameOf_enrich] at h3
    rw [resolvable_eq_isSome, h3] at hres
    simp at hres

/-- Witness for the amended C1 on the section-8 scenario order (two restaurants
`A` and `B` plus one unresolvable item): two segments, subtotal sum 275. -/
theorem c1_segmentation_by_name_witness :
    (segmentsOfOrder gp0 wOrder).length = 2
    ∧ ((segmentsOfOrder gp0 wOrder).map Segment.total).sum = 275 :=
  ⟨((c1_segmentation_by_name gp0 wOrder).1).trans (by decide),
   ((c1_segmentation_by_name gp0 wOrder).2.2.2.1).trans (by
     show sumSubtotals (List.filter resolvable wOrder.order_items) = 275
     have hfil : wOrder.order_items.filter resolvable = [wItemA1, wItemA2, wItemB] := by
       decide
     rw [hfil]
     norm_num [sumSubtotals, itemSubtotal, wItemA1, wItemA2, wItemB])⟩

/-- C3: the grouping keys segments by restaurant display name, not id: any two
items of one order whose resolved restaurants share a name (even with different
ids) land in one and the same segment, whose subtotal sums every item of that
name, whose synthetic display id uses the restaurant id of the first such item
encountered, and which is the only segment of that name; consequently an order
can produce strictly fewer segments than it has distinct restaurant ids. -/
theorem c3_grouping_by_name (gp : String → String → Option String) (o : HistOrder)
    (n ri rj : String) (i j : HistItem)
    (hi : i ∈ o.order_items) (hj : j ∈ o.order_items)
    (hin : restInfoOf i = some (n, ri)) (hjn : restInfoOf j = some (n, rj)) :
    (∃ s ∈ segmentsOfOrder gp o,
        enrichItem gp i ∈ s.order_items ∧ enrichItem gp j ∈ s.order_items
        ∧ s.restaurantName = n
        ∧ s.total
            = sumSubtotals (o.order_items.filter fun x => resNameOf x = some n)
        ∧ (∀ i0, (o.order_items.filter fun x => resNameOf x = some n).head?
              = some i0 → s.displayId = o.id ++ "-" ++ ridOf i0)
        ∧ (∀ s2 ∈ segmentsOfOrder gp o, s2.restaurantName = n → s2 = s))
    ∧ (segmentsOfOrder gp0 cxOrder).length
        < (distinctRids cxOrder.order_items).length := by
  refine ⟨?_, by decide⟩
  have hniE : resNameOf (enrichItem gp i) = some n := by
    rw [resNameOf_enrich]
    simp [resNameOf, hin]
  have hnjE : resNameOf (enrichItem gp j) = some n := by
    rw [resNameOf_enrich]
    simp [resNameOf, hjn]
  have hiE : enrichItem gp i ∈ o.order_items.map (enrichItem gp) :=
    List.mem_map_of_mem _ hi
  have hjE : enrichItem gp j ∈ o.order_items.map (enrichItem gp) :=
    List.mem_map_of_mem _ hj
  have hnames : n ∈ resNames (o.order_items.map (enrichItem gp)) := by
    unfold resNames
    exact List.mem_filterMap.mpr ⟨_, hiE, hniE⟩
  have hnd : n ∈ distinctNames (o.order_items.map (enrichItem gp)) :=
    mem_dedupFirst.mpr hnames
  rw [segmentsOfOrder_eq]
  refine ⟨_, List.mem_map.mpr ⟨n, hnd, rfl⟩, ?_, ?_, rfl, ?_, ?_, ?_⟩
  · exact List.mem_filter.mpr ⟨hiE, by simp [hniE]⟩
  · exact List.mem_filter.mpr ⟨hjE, by simp [hnjE]⟩
  · show sumSubtotals (itemsWithName (o.order_items.map (enrichItem gp)) n) = _
    rw [itemsWithName_map_enrich, sumSubtotals_map_enrich]
    rfl
  · intro i0 h0
    show o.id ++ "-" ++ firstRid (o.order_items.map (enrichItem gp)) n = _
    have h0E : (itemsWithName o.order_items n).head? = some i0 := h0
    unfold firstRid
    rw [itemsWithName_map_enrich, List.head?_map, h0E]
    simp [ridOf_enrich]
  · intro s2 hs2 hname
    obtain ⟨n2, _, rfl⟩ := List.mem_map.mp hs2
    have : n2 = n := hname
    subst this
    rfl

/-- Witness for C3 at the name-collision order: the two same-named items from
distinct restaurants produce fewer segments than distinct restaurant ids. -/
theorem c3_grouping_by_name_witness :
    (segmentsOfOrder gp0 cxOrder).length
      < (distinctRids cxOrder.order_items).length :=
  (c3_grouping_by_name gp0 cxOrder "Alpha" "r1" "r2" cxItemA cxItemB
    (by decide) (by decide) (by decide) (by decide)).2

/-- C4: given a restaurant identity, order-queue assembly returns the empty list
(and issues no header fetch) when the line fetch yields zero rows; otherwise it
issues the header fetch and returns exactly the order headers whose id occurs
among the fetched lines, ordered by creation time descending, each annotated with
exactly the fetched lines bearing its order id and with `restaurant_subtotal`
equal to the sum of `price * quantity` over that subset rounded to two decimals. -/
theorem c4_order_queue_assembly (s : Store) (rid : String) (prev : List AnnOrder) :
    (itemsFetch s rid = [] →
      loadOrders (FetchRes.ok (itemsFetch s rid))
          (fun ids => FetchRes.ok (headersFetch s ids)) prev
        = ⟨[], false, false⟩)
    ∧ (itemsFetch s rid ≠ [] →
        (loadOrders (FetchRes.ok (itemsFetch s rid))
            (fun ids => FetchRes.ok (headersFetch s ids)) prev).headerFetchIssued
          = true)
    ∧ List.Pairwise (fun a b => hdrGe a.header b.header)
        (loadOrders (FetchRes.ok (itemsFetch s rid))
            (fun ids => FetchRes.ok (headersFetch s ids)) prev).orders
    ∧ (∀ a ∈ (loadOrders (FetchRes.ok (itemsFetch s rid))
            (fun ids => FetchRes.ok (headersFetch s ids)) prev).orders,
        a.header ∈ s.orders
        ∧ (∃ r ∈ itemsFetch s rid, r.order_id = a.header.id)
        ∧ a.order_items
            = ((itemsFetch s rid).filter fun r => r.order_id = a.header.id).map
                projectLine
        ∧ a.restaurant_subtotal
            = toFixed2 ((((itemsFetch s rid).filter
                  fun r => r.order_id = a.header.id).map lineSubtotal).sum))
    ∧ (∀ o ∈ s.orders, (∃ r ∈ itemsFetch s rid, r.order_id = o.id) →
        ∃ a ∈ (loadOrders (FetchRes.ok (itemsFetch s rid))
            (fun ids => FetchRes.ok (headersFetch s ids)) prev).orders,
          a.header = o) := by
  have hempty : itemsFetch s rid = [] →
      loadOrders (FetchRes.ok (itemsFetch s rid))
          (fun ids => FetchRes.ok (headersFetch s ids)) prev
        = ⟨[], false, false⟩ := by
    intro h
    rw [h]
    rfl
  have hkey : itemsFetch s rid ≠ [] →
      loadOrders (FetchRes.ok (itemsFetch s rid))
          (fun ids => FetchRes.ok (headersFetch s ids)) prev
        = ⟨(headersFetch s
              (dedupFirst ((itemsFetch s rid).map (·.order_id)))).map
             (annotate (itemsFetch s rid)), true, false⟩ := by
    intro hne
    have hids : dedupFirst ((itemsFetch s rid).map (·.order_id)) ≠ [] := by
      intro h0
      exact hne (List.map_eq_nil_iff.mp (dedupFirst_eq_nil.mp h0))
    simp only [loadOrders]
    rw [if_neg hids]
  refine ⟨hempty, fun hne => by rw [hkey hne], ?_, ?_, ?_⟩
  · by_cases hne : itemsFetch s rid = []
    · rw [hempty hne]
      simp
    · rw [hkey hne]
      have hs := List.sorted_insertionSort hdrGe
        (s.orders.filter fun o =>
          o.id ∈ dedupFirst ((itemsFetch s rid).map (·.order_id)))
      exact hs.map _ (fun a b hab => hab)
  · intro a ha
    by_cases hne : itemsFetch s rid = []
    · rw [hempty hne] at ha
      simp at ha
    · rw [hkey hne] at ha
      obtain ⟨h, hh, rfl⟩ := List.mem_map.mp ha
      have hh2 : h ∈ s.orders.filter fun o =>
          o.id ∈ dedupFirst ((itemsFetch s rid).map (·.order_id)) :=
        (List.perm_insertionSort hdrGe _).subset hh
      obtain ⟨hmem, hpred⟩ := List.mem_filter.mp hh2
      have hid : h.id ∈ (itemsFetch s rid).map (·.order_id) :=
        mem_dedupFirst.mp (of_decide_eq_true hpred)
      obtain ⟨r, hr, hrid⟩ := List.mem_map.mp hid
      refine ⟨hmem, ⟨r, hr, hrid⟩, rfl, ?_⟩
      show toFixed2 _ = toFixed2 _
      rw [List.map_map]
      rfl
  · intro o ho hex
    obtain ⟨r, hr, hrid⟩ := hex
    have hne : itemsFetch s rid ≠ [] := by
      intro h0
      rw [h0] at hr
      exact absurd hr (List.not_mem_nil r)
    rw [hkey hne]
    refine ⟨annotate (itemsFetch s rid) o, List.mem_map.mpr ⟨o, ?_, rfl⟩, rfl⟩
    refine (List.perm_insertionSort hdrGe _).mem_iff.mpr (List.mem_filter.mpr ⟨ho, ?_⟩)
    exact decide_eq_true
      (mem_dedupFirst.mpr (List.mem_map.mpr ⟨r, hr, hrid⟩))

/-- Witness for C4 at the concrete store, restaurant `rA` and empty previous list. -/
theorem c4_order_queue_assembly_witness :
    (loadOrders (FetchRes.ok (itemsFetch wStore "rA"))
        (fun ids => FetchRes.ok (headersFetch wStore ids)) []).headerFetchIssued
      = true
    ∧ List.Pairwise (fun a b => hdrGe a.header b.header)
        (loadOrders (FetchRes.ok (itemsFetch wStore "rA"))
            (fun ids => FetchRes.ok (headersFetch wStore ids)) []).orders :=
  ⟨(c4_order_queue_assembly wStore "rA" []).2.1 (by decide),
   (c4_order_queue_assembly wStore "rA" []).2.2.1⟩

/-- An owner insert does not count as a restaurant-insert attempt. -/
theorem countAttempts_owner_cons (uid cn : String) (ph : Option String)
    (ops : List RegOp) :
    countAttempts (RegOp.ownerInsert uid cn ph :: ops) = countAttempts ops := by
  simp [countAttempts, List.countP_cons]

/-- A wait does not count as a restaurant-insert attempt. -/
theorem countAttempts_wait_cons (n : ℕ) (ops : List RegOp) :
    countAttempts (RegOp.waitMs n :: ops) = countAttempts ops := by
  simp [countAttempts, List.countP_cons]

/-- An insert attempt counts once. -/
theorem countAttempts_attempt_cons (row : RestaurantRow) (ops : List RegOp) :
    countAttempts (RegOp.restaurantInsertAttempt row :: ops)
      = countAttempts ops + 1 := by
  simp [countAttempts, List.countP_cons]

/-- Attempt counting distributes over concatenation. -/
theorem countAttempts_append (a b : List RegOp) :
    countAttempts (a ++ b) = countAttempts a + countAttempts b := by
  simp [countAttempts, List.countP_append]

/-- The wait-and-verify tail contains no insert attempt. -/
theorem countAttempts_verify_tail (n : ℕ) (uid : String) :
    countAttempts [RegOp.waitMs n, RegOp.verifySelect uid] = 0 := by
  simp [countAttempts, List.countP_cons]

/-- The bounded-retry insert loop makes at most `retries` insert attempts. -/
theorem countAttempts_insertLoop_le (insOk : ℕ → Bool) (row : RestaurantRow) :
    ∀ (retries k : ℕ), countAttempts (insertLoop insOk row retries k).1 ≤ retries := by
  intro retries
  induction retries with
  | zero => intro k; simp [insertLoop, countAttempts]
  | succ n ih =>
    intro k
    simp only [insertLoop]
    by_cases h : insOk k = true
    · rw [if_pos h]
      simp [countAttempts, List.countP_cons]
    · rw [if_neg h]
      by_cases hn : n + 1 > 1
      · rw [if_pos hn]
        have hih := ih (k + 1)
        rw [countAttempts_attempt_cons, countAttempts_wait_cons]
        omega
      · rw [if_neg hn]
        simp [countAttempts, List.countP_cons]

/-- C6: the restaurant-row insert is attempted at most 3 times; in the scenario
(barangay `Tibanga`, category id `7`) where the insert fails twice and succeeds on
the third attempt, the trace shows three attempts separated by 1000 ms waits, a
1500 ms wait, then the read-back by owner id, the read-back finds the row, and
registration reports success; when every attempt fails, exactly 3 attempts are
made and registration surfaces an error instead of succeeding. -/
theorem c6_registration_retry :
    (∀ (form : RegForm) (uid : String) (ownerInsertOk : Bool) (insOk : ℕ → Bool)
        (store : List RestaurantRow),
        countAttempts
            (signUpRegistration form (some uid) true ownerInsertOk insOk store).ops
          ≤ 3)
    ∧ (signUpRegistration wForm (some "u1") true true insOkThird []).ops
        = [RegOp.ownerInsert "u1" "Juan Dela Cruz" none,
           RegOp.restaurantInsertAttempt (restaurantRowOf wForm "u1"),
           RegOp.waitMs 1000,
           RegOp.restaurantInsertAttempt (restaurantRowOf wForm "u1"),
           RegOp.waitMs 1000,
           RegOp.restaurantInsertAttempt (restaurantRowOf wForm "u1"),
           RegOp.waitMs 1500, RegOp.verifySelect "u1"]
    ∧ (signUpRegistration wForm (some "u1") true true insOkThird []).succeeded = true
    ∧ (signUpRegistration wForm (some "u1") true true insOkThird []).message
        = RegMessage.registered "Tibanga Grill"
    ∧ singleByOwner (signUpRegistration wForm (some "u1") true true insOkThird []).store
          "u1"
        = some (restaurantRowOf wForm "u1")
    ∧ (restaurantRowOf wForm "u1").address_barangay = "Tibanga"
    ∧ (restaurantRowOf wForm "u1").category_id = "7"
    ∧ (signUpRegistration wForm (some "u1") true true insOkNever []).succeeded = false
    ∧ (signUpRegistration wForm (some "u1") true true insOkNever []).message
        = RegMessage.errorMsg
    ∧ countAttempts (signUpRegistration wForm (some "u1") true true insOkNever []).ops
        = 3 := by
  refine ⟨?_, by decide, by decide, by decide, by decide, by decide, by decide,
    by decide, by decide, by decide⟩
  intro form uid ownerInsertOk insOk store
  have hle := countAttempts_insertLoop_le insOk (restaurantRowOf form uid) 3 0
  cases how : ownerInsertOk with
  | false => simp [signUpRegistration, countAttempts, List.countP_cons]
  | true =>
    cases hcr : (insertLoop insOk (restaurantRowOf form uid) 3 0).2 with
    | true =>
      cases hso : singleByOwner (store ++ [restaurantRowOf form uid]) uid with
      | some vr =>
        simp only [signUpRegistration, hcr, hso, if_true]
        rw [countAttempts_append, countAttempts_verify_tail, countAttempts_owner_cons]
        omega
      | none =>
        simp only [signUpRegistration, hcr, hso, if_true]
        rw [countAttempts_append, countAttempts_verify_tail, countAttempts_owner_cons]
        omega
    | false =>
      simp only [signUpRegistration, hcr, if_true, Bool.false_eq_true, if_false]
      rw [countAttempts_owner_cons]
      omega

/-- Witness for C6 at the concrete scenario inputs. -/
theorem c6_registration_retry_witness :
    countAttempts (signUpRegistration wForm (some "u1") true true insOkThird []).ops
        ≤ 3
    ∧ (signUpRegistration wForm (some "u1") true true insOkThird []).succeeded
        = true :=
  ⟨c6_registration_retry.1 wForm "u1" true insOkThird [],
   c6_registration_retry.2.2.1⟩

/-- Witness for C5 at a concrete line list, previous list and status write. -/
theorem c5_failure_atomicity_witness :
    loadOrders (FetchRes.ok wLines) (fun _ => FetchRes.fail) wPrev
        = ⟨wPrev, true, true⟩
    ∧ (updateOrderStatus true wPrev "o1" "Preparing").orders.length = wPrev.length
    ∧ (((updateOrderStatus true wPrev "o1" "Preparing").orders.get
          ⟨0, by decide⟩).header.status = "Preparing") :=
  ⟨c5_failure_atomicity.2.1 wLines wPrev (by decide),
   (c5_failure_atomicity.2.2.2 wPrev "o1" "Preparing").2.1,
   by
    have h := (((c5_failure_atomicity.2.2.2 wPrev "o1" "Preparing").2.2 0 (by decide)
      (by decide)).2 (by decide)).1
    simpa [List.get_eq_getElem] using h⟩

end FoodOrder
